import Mathlib

/-!
Verification development for the `personal-data-mining` ledger library.

The Python source wraps pandas DataFrames.  We shallow-embed a ledger as a
`List Row`, where a `Row` carries the canonical columns that the verified
operations read or write (`date`, `amount`, `account`, `category`) together
with the pandas index label (`key`, unique in practice since the loaders
build a fresh RangeIndex).  Dates are modelled as integers (days), amounts as
integers (the code compares amounts with exact equality), durations as
integer day counts.  Boolean-mask filtering (`df[msk]`) is `maskFilter`.
-/

/-- One canonical cash-ledger transaction row (`cash_ledger.py` schema after
normalization).  `key` is the pandas index label of the row. -/
structure Row where
  key : Nat
  date : Int
  amount : Int
  account : String
  category : String
deriving DecidableEq, Repr

instance : Inhabited Row := ⟨⟨0, 0, 0, "", ""⟩⟩

/-- `df[msk]`: keep the rows whose mask bit is true, in order. -/
def maskFilter : List Row → List Bool → List Row
  | [], _ => []
  | _ :: _, [] => []
  | r :: rs, b :: bs => if b then r :: maskFilter rs bs else maskFilter rs bs

/-- The candidate test applied inside `CashLedger.transfers` to a scanned row
`a` and a potential partner `b` (cash_ledger.py lines 240-249): exactly
opposite amount, different account when `allow_internal=False`, and dates at
most `w` apart.  Note the code never excludes `b = a` itself. -/
def candidate (a b : Row) (w : Int) (ai : Bool) : Prop :=
  b.amount = -a.amount ∧ (ai = true ∨ b.account ≠ a.account) ∧ |b.date - a.date| ≤ w

instance (a b : Row) (w : Int) (ai : Bool) : Decidable (candidate a b w ai) :=
  inferInstanceAs (Decidable (_ ∧ _ ∧ _))

/-- Index (into the full table) of the first not-yet-marked row passing the
candidate filters for row `a`, scanning rows in table order — the
`df.index[0]` pick of cash_ledger.py line 257. -/
def findMatch : List Row → List Bool → Row → Int → Bool → Option Nat
  | [], _, _, _, _ => none
  | _ :: _, [], _, _, _ => none
  | b :: bs, m :: ms, a, w, ai =>
    if m = false ∧ candidate a b w ai then some 0
    else (findMatch bs ms a w ai).map (fun j => j + 1)

/-- One iteration of the `transfers` loop body for table position `i`
(cash_ledger.py lines 226-257): skip if already marked, otherwise mark both
`i` and the first matching position. -/
def transferStep (rows : List Row) (w : Int) (ai : Bool) (mask : List Bool) (i : Nat) :
    List Bool :=
  if mask.getD i false = true then mask
  else
    match findMatch rows mask (rows.getD i default) w ai with
    | none => mask
    | some j => (mask.set i true).set j true

/-- The full single greedy pass of `CashLedger.transfers`: the final
`transfer_transaction_mask`. -/
def transfersMask (rows : List Row) (w : Int) (ai : Bool) : List Bool :=
  (List.range rows.length).foldl (transferStep rows w ai) (List.replicate rows.length false)

/-- `time_window = time_window or pd.to_timedelta("7d")` (line 224): both an
omitted window and a zero (falsy) timedelta are replaced by the 7-day
default. -/
def resolveWindow : Option Int → Int
  | none => 7
  | some t => if t = 0 then 7 else t

/-- `CashLedger.transfers(invert, time_window, allow_internal)`
(cash_ledger.py lines 181-261). -/
def CashLedger.transfers (rows : List Row) (invert : Bool) (timeWindow : Option Int)
    (allowInternal : Bool) : List Row :=
  let mask := transfersMask rows (resolveWindow timeWindow) allowInternal
  maskFilter rows (if invert then mask.map (fun b => !b) else mask)

/-- `TransactionsExport.transfers` (mint_export_reader/__init__.py lines
110-190) is line-for-line identical to `CashLedger.transfers`. -/
def TransactionsExport.transfers (rows : List Row) (invert : Bool) (timeWindow : Option Int)
    (allowInternal : Bool) : List Row :=
  CashLedger.transfers rows invert timeWindow allowInternal

/-- `CashLedger.when(after, before, invert)` (cash_ledger.py lines 311-349):
mask starts all-true, is AND-ed with `date >= after` and `date < before` when
the bounds are given, and the conjunction is inverted when `invert`. -/
def CashLedger.when (rows : List Row) (after before : Option Int) (invert : Bool) :
    List Row :=
  let msk := rows.map (fun r =>
    (true && (match after with
              | none => true
              | some a => decide (a ≤ r.date)))
      && (match before with
          | none => true
          | some b => decide (r.date < b)))
  maskFilter rows (if invert then msk.map (fun b => !b) else msk)

/-- `CashLedger.income()` (lines 155-166): rows with `amount > 0`. -/
def CashLedger.income (rows : List Row) : List Row :=
  rows.filter (fun r => decide (0 < r.amount))

/-- `CashLedger.expenses()` (lines 168-179): rows with `amount <= 0`. -/
def CashLedger.expenses (rows : List Row) : List Row :=
  rows.filter (fun r => decide (r.amount ≤ 0))

/-- `CashLedger.total()` (lines 501-509): sum of the amount column. -/
def CashLedger.total (rows : List Row) : Int :=
  (rows.map Row.amount).sum

/-- The table produced by `df.loc[other.df.index, "category"] = new_category`
(line 470): every row whose key is among `okeys` gets the new category. -/
def CashLedger.recategorizeTable (rows : List Row) (okeys : List Nat) (c : String) :
    List Row :=
  rows.map (fun r => if r.key ∈ okeys then { r with category := c } else r)

/-- `CashLedger.recategorize(other, new_category, inplace)` (lines 446-473).
The result pair is (value returned to the caller, the receiver's backing
table after the call): with `inplace=False` a fresh table is edited and
returned and the receiver is untouched; with `inplace=True` the receiver's
own table is edited and `None` is returned. -/
def CashLedger.recategorize (rows : List Row) (okeys : List Nat) (c : String)
    (inplace : Bool) : Option (List Row) × List Row :=
  if inplace then (none, CashLedger.recategorizeTable rows okeys c)
  else (some (CashLedger.recategorizeTable rows okeys c), rows)

/-- `CashLedger.in_categories(category_or_categories, invert)` (lines
475-499): membership mask on the category column, optionally inverted. -/
def CashLedger.in_categories (rows : List Row) (cats : List String) (invert : Bool) :
    List Row :=
  let msk := rows.map (fun r => cats.contains r.category)
  maskFilter rows (if invert then msk.map (fun b => !b) else msk)

/-- Claim C1: on the three-row ledger [amount -50 @ checking @ d0,
amount 50 @ creditcard @ d0+2, amount -20 @ checking @ d0+30], `transfers()`
with the default 7-day window and `allow_internal=True` returns exactly the
first two rows, and `transfers(invert=True)` returns exactly the third. -/
theorem transfers_three_row_scenario (d0 : Int) :
    CashLedger.transfers
      [⟨0, d0, -50, "checking", ""⟩, ⟨1, d0 + 2, 50, "creditcard", ""⟩,
       ⟨2, d0 + 30, -20, "checking", ""⟩] false none true
      = [⟨0, d0, -50, "checking", ""⟩, ⟨1, d0 + 2, 50, "creditcard", ""⟩]
    ∧ CashLedger.transfers
      [⟨0, d0, -50, "checking", ""⟩, ⟨1, d0 + 2, 50, "creditcard", ""⟩,
       ⟨2, d0 + 30, -20, "checking", ""⟩] true none true
      = [⟨2, d0 + 30, -20, "checking", ""⟩] := by
  have hm : transfersMask
      [⟨0, d0, -50, "checking", ""⟩, ⟨1, d0 + 2, 50, "creditcard", ""⟩,
       ⟨2, d0 + 30, -20, "checking", ""⟩] 7 true = [true, true, false] := by
    norm_num [transfersMask, List.range_succ, transferStep, findMatch, candidate, abs_le,
      List.getD, List.set]
  constructor <;> simp [CashLedger.transfers, resolveWindow, hm, maskFilter]

/-- Claim C2, counterexample: a single zero-amount row has no distinct
partner at all, yet `transfers()` marks it — the candidate search never
excludes the row itself, and `-0 = 0` makes a lone zero-amount row match
itself.  So it shows up in the `invert=False` output and is absent from the
`invert=True` output, contradicting the claim. -/
theorem transfers_zero_amount_self_match :
    CashLedger.transfers [⟨0, 0, 0, "checking", ""⟩] false none true
        = [⟨0, 0, 0, "checking", ""⟩]
      ∧ CashLedger.transfers [⟨0, 0, 0, "checking", ""⟩] true none true = [] := by
  decide

/-- Claim C3: for three nonzero rows whose amounts all equal `a` or `-a`
(both signs occurring), with all dates within the default window, the greedy
pass marks exactly the first matching pair in table order — rows 0 and 1 if
their amounts are opposite, otherwise rows 0 and 2 — and the remaining row
stays unmatched; neither member of the pair is paired again. -/
theorem transfers_greedy_tie_break (r0 r1 r2 : Row) (a : Int) (ha : a ≠ 0)
    (h0 : r0.amount = a ∨ r0.amount = -a)
    (h1 : r1.amount = a ∨ r1.amount = -a)
    (h2 : r2.amount = a ∨ r2.amount = -a)
    (hmix : ¬(r0.amount = r1.amount ∧ r1.amount = r2.amount))
    (d01 : |r1.date - r0.date| ≤ 7) (d02 : |r2.date - r0.date| ≤ 7)
    (d12 : |r2.date - r1.date| ≤ 7) :
    transfersMask [r0, r1, r2] 7 true
        = (if r1.amount = -r0.amount then [true, true, false] else [true, false, true])
      ∧ CashLedger.transfers [r0, r1, r2] false none true
        = (if r1.amount = -r0.amount then [r0, r1] else [r0, r2])
      ∧ CashLedger.transfers [r0, r1, r2] true none true
        = (if r1.amount = -r0.amount then [r2] else [r1]) := by
  have hne1 : ¬(a = -a) := by omega
  have hne2 : ¬(-a = a) := by omega
  have hm : transfersMask [r0, r1, r2] 7 true
      = (if r1.amount = -r0.amount then [true, true, false] else [true, false, true]) := by
    rcases h0 with h0 | h0 <;> rcases h1 with h1 | h1 <;> rcases h2 with h2 | h2 <;>
      first
        | (exfalso; exact hmix ⟨by omega, by omega⟩)
        | (rw [if_pos (show r1.amount = -r0.amount by omega)]
           simp [transfersMask, List.range_succ, transferStep, findMatch, candidate,
             h0, h1, h2, hne1, hne2, d01, d02, d12, List.getD, List.set])
        | (rw [if_neg (show ¬ r1.amount = -r0.amount by omega)]
           simp [transfersMask, List.range_succ, transferStep, findMatch, candidate,
             h0, h1, h2, hne1, hne2, d01, d02, d12, List.getD, List.set])
  refine ⟨hm, ?_, ?_⟩ <;> by_cases hc : r1.amount = -r0.amount <;>
    simp [CashLedger.transfers, resolveWindow, hm, hc, maskFilter]

/-- Concrete instance exercising `transfers_greedy_tie_break` on amounts
(5, 5, -5): the pair is rows 0 and 2, row 1 stays unmatched. -/
theorem transfers_greedy_tie_break_witness :
    CashLedger.transfers [⟨0, 0, 5, "x", ""⟩, ⟨1, 1, 5, "y", ""⟩, ⟨2, 2, -5, "z", ""⟩]
        false none true
      = [⟨0, 0, 5, "x", ""⟩, ⟨2, 2, -5, "z", ""⟩]
    ∧ CashLedger.transfers [⟨0, 0, 5, "x", ""⟩, ⟨1, 1, 5, "y", ""⟩, ⟨2, 2, -5, "z", ""⟩]
        true none true
      = [⟨1, 1, 5, "y", ""⟩] := by
  have h := transfers_greedy_tie_break ⟨0, 0, 5, "x", ""⟩ ⟨1, 1, 5, "y", ""⟩
    ⟨2, 2, -5, "z", ""⟩ 5 (by decide) (by decide) (by decide) (by decide) (by decide)
    (by decide) (by decide) (by decide)
  exact ⟨by simpa using h.2.1, by simpa using h.2.2⟩

/-- Claim C4: two rows with exactly opposite nonzero amounts, dates within
the default window, and the same account are not matched when
`allow_internal=False` (the `transfers` result is empty) but are matched when
`allow_internal=True`. -/
theorem transfers_internal_policy (r0 r1 : Row) (hnz : r0.amount ≠ 0)
    (hopp : r1.amount = -r0.amount) (hacct : r1.account = r0.account)
    (hw : |r1.date - r0.date| ≤ 7) :
    CashLedger.transfers [r0, r1] false none false = []
    ∧ CashLedger.transfers [r0, r1] false none true = [r0, r1] := by
  have hself : ¬(r0.amount = -r0.amount) := by omega
  have hm1 : transfersMask [r0, r1] 7 false = [false, false] := by
    simp [transfersMask, List.range_succ, transferStep, findMatch, candidate, hacct]
  have hm2 : transfersMask [r0, r1] 7 true = [true, true] := by
    simp [transfersMask, List.range_succ, transferStep, findMatch, candidate, hself, hopp,
      hw, List.getD, List.set]
  constructor <;> simp [CashLedger.transfers, resolveWindow, hm1, hm2, maskFilter]

/-- Concrete instance exercising `transfers_internal_policy` on a
(+5, -5) same-account pair one day apart. -/
theorem transfers_internal_policy_witness :
    CashLedger.transfers [⟨0, 0, 5, "a", ""⟩, ⟨1, 1, -5, "a", ""⟩] false none false = []
    ∧ CashLedger.transfers [⟨0, 0, 5, "a", ""⟩, ⟨1, 1, -5, "a", ""⟩] false none true
      = [⟨0, 0, 5, "a", ""⟩, ⟨1, 1, -5, "a", ""⟩] :=
  transfers_internal_policy ⟨0, 0, 5, "a", ""⟩ ⟨1, 1, -5, "a", ""⟩ (by decide) (by decide)
    (by decide) (by decide)

/-- Claim C10: passing a zero-length time window is the same as omitting the
argument — `time_window or pd.to_timedelta("7d")` treats the falsy zero
timedelta like `None`, so the 7-day default is substituted, in both
`CashLedger.transfers` and the identical `TransactionsExport.transfers`. -/
theorem transfers_zero_window_default (rows : List Row) (invert ai : Bool) :
    CashLedger.transfers rows invert (some 0) ai
        = CashLedger.transfers rows invert none ai
      ∧ TransactionsExport.transfers rows invert (some 0) ai
        = TransactionsExport.transfers rows invert none ai := by
  constructor <;> rfl

/-- `getD` is unchanged by a `set` at a different position. -/
theorem getD_set_of_ne {α : Type} (l : List α) (p k : Nat) (x d : α) (h : k ≠ p) :
    (l.set p x).getD k d = l.getD k d := by
  induction l generalizing p k with
  | nil => simp
  | cons a t ih =>
    cases p with
    | zero =>
      cases k with
      | zero => exact absurd rfl h
      | succ k => simp [List.set]
    | succ p =>
      cases k with
      | zero => simp [List.set]
      | succ k => simpa [List.set] using ih p k (by omega)

/-- Every bit of the initial all-false mask reads false. -/
theorem getD_replicate_false (n k : Nat) : (List.replicate n false).getD k false = false := by
  induction n generalizing k with
  | zero => simp
  | succ n ih =>
    cases k with
    | zero => simp [List.replicate]
    | succ k => simpa [List.replicate] using ih k

/-- Reading an in-range bit of a negated mask negates the read. -/
theorem getD_map_not (l : List Bool) (k : Nat) (h : k < l.length) :
    (l.map (fun b => !b)).getD k false = !(l.getD k false) := by
  induction l generalizing k with
  | nil => simp at h
  | cons b bs ih =>
    cases k with
    | zero => simp
    | succ k => simpa using ih k (by simpa using h)

/-- Soundness of the candidate search: a returned index is in range, was not
yet marked, and passes the candidate filters. -/
theorem findMatch_some {rows : List Row} {mask : List Bool} {a : Row} {w : Int} {ai : Bool}
    {j : Nat} (h : findMatch rows mask a w ai = some j) :
    j < rows.length ∧ mask.getD j false = false ∧ candidate a (rows.getD j default) w ai := by
  induction rows generalizing mask j with
  | nil => simp [findMatch] at h
  | cons b bs ih =>
    cases mask with
    | nil => simp [findMatch] at h
    | cons m ms =>
      by_cases hc : m = false ∧ candidate a b w ai
      · rw [findMatch, if_pos hc] at h
        obtain rfl : (0 : Nat) = j := Option.some.inj h
        exact ⟨by simp, hc.1, hc.2⟩
      · rw [findMatch, if_neg hc] at h
        cases hfm : findMatch bs ms a w ai with
        | none => rw [hfm] at h; simp at h
        | some j' =>
          rw [hfm] at h
          obtain rfl : j' + 1 = j := Option.some.inj h
          obtain ⟨h1, h2, h3⟩ := ih hfm
          exact ⟨by simpa using h1, by simpa using h2, by simpa using h3⟩

/-- The candidate-pair predicate is symmetric in the two rows. -/
theorem candidate_symm {a b : Row} {w : Int} {ai : Bool} (h : candidate a b w ai) :
    candidate b a w ai := by
  obtain ⟨h1, h2, h3⟩ := h
  refine ⟨by omega, ?_, by rwa [abs_sub_comm]⟩
  rcases h2 with h2 | h2
  · exact Or.inl h2
  · exact Or.inr (Ne.symm h2)

/-- One loop iteration never changes the mask's length. -/
theorem transferStep_length (rows : List Row) (w : Int) (ai : Bool) (mask : List Bool)
    (i : Nat) : (transferStep rows w ai mask i).length = mask.length := by
  unfold transferStep
  by_cases h : mask.getD i false = true
  · rw [if_pos h]
  · rw [if_neg h]
    cases findMatch rows mask (rows.getD i default) w ai with
    | none => rfl
    | some j => simp

theorem foldl_transferStep_length (rows : List Row) (w : Int) (ai : Bool) :
    ∀ (is : List Nat) (mask : List Bool),
      (is.foldl (transferStep rows w ai) mask).length = mask.length := by
  intro is
  induction is with
  | nil => intro mask; rfl
  | cons i' is ih =>
    intro mask
    rw [List.foldl_cons, ih, transferStep_length]

theorem transfersMask_length (rows : List Row) (w : Int) (ai : Bool) :
    (transfersMask rows w ai).length = rows.length := by
  unfold transfersMask
  rw [foldl_transferStep_length, List.length_replicate]

/-- A row with no candidate partner anywhere in the table (itself included)
is never marked by any sequence of loop iterations. -/
theorem foldl_preserves_unmatched (rows : List Row) (w : Int) (ai : Bool) (i : Nat)
    (hall : ∀ j, j < rows.length →
      ¬ candidate (rows.getD i default) (rows.getD j default) w ai) :
    ∀ (is : List Nat) (mask : List Bool), (∀ i' ∈ is, i' < rows.length) →
      mask.getD i false = false →
      (is.foldl (transferStep rows w ai) mask).getD i false = false := by
  intro is
  induction is with
  | nil => intro mask _ h; simpa using h
  | cons i' is ih =>
    intro mask hmem hmask
    rw [List.foldl_cons]
    refine ih _ (fun x hx => hmem x (List.mem_cons_of_mem _ hx)) ?_
    unfold transferStep
    by_cases h1 : mask.getD i' false = true
    · rw [if_pos h1]; exact hmask
    · rw [if_neg h1]
      cases hfm : findMatch rows mask (rows.getD i' default) w ai with
      | none => exact hmask
      | some j =>
        obtain ⟨hj, hjm, hcand⟩ := findMatch_some hfm
        have hii' : i ≠ i' := by
          rintro rfl
          exact hall j hj hcand
        have hij : i ≠ j := by
          rintro rfl
          exact hall i' (hmem i' (List.mem_cons_self i' is)) (candidate_symm hcand)
        rw [getD_set_of_ne _ _ _ _ _ hij, getD_set_of_ne _ _ _ _ _ hii']
        exact hmask

/-- Every marked row has some candidate partner in the table: the loop only
marks a row as one half of a pair that passed the candidate filters. -/
theorem foldl_preserves_partner (rows : List Row) (w : Int) (ai : Bool) :
    ∀ (is : List Nat) (mask : List Bool), (∀ i' ∈ is, i' < rows.length) →
      mask.length = rows.length →
      (∀ k, mask.getD k false = true →
        ∃ m, m < rows.length ∧ candidate (rows.getD k default) (rows.getD m default) w ai) →
      ∀ k, (is.foldl (transferStep rows w ai) mask).getD k false = true →
        ∃ m, m < rows.length ∧ candidate (rows.getD k default) (rows.getD m default) w ai := by
  intro is
  induction is with
  | nil => intro mask _ _ hinv; simpa using hinv
  | cons i' is ih =>
    intro mask hmem hlen hinv
    rw [List.foldl_cons]
    refine ih _ (fun x hx => hmem x (List.mem_cons_of_mem _ hx))
      (by rw [transferStep_length]; exact hlen) ?_
    intro k hk
    unfold transferStep at hk
    by_cases h1 : mask.getD i' false = true
    · rw [if_pos h1] at hk; exact hinv k hk
    · rw [if_neg h1] at hk
      cases hfm : findMatch rows mask (rows.getD i' default) w ai with
      | none => rw [hfm] at hk; exact hinv k hk
      | some j =>
        rw [hfm] at hk
        obtain ⟨hj, hjm, hcand⟩ := findMatch_some hfm
        have hi'n : i' < rows.length := hmem i' (List.mem_cons_self i' is)
        by_cases hkj : k = j
        · subst hkj
          exact ⟨i', hi'n, candidate_symm hcand⟩
        · rw [getD_set_of_ne _ _ _ _ _ hkj] at hk
          by_cases hki : k = i'
          · subst hki
            exact ⟨j, hj, hcand⟩
          · rw [getD_set_of_ne _ _ _ _ _ hki] at hk
            exact hinv k hk

/-- A row whose mask bit is true appears in the mask-filtered table. -/
theorem mem_maskFilter (rows : List Row) (mask : List Bool) (i : Nat)
    (hi : i < rows.length) (hm : mask.getD i false = true) :
    rows.getD i default ∈ maskFilter rows mask := by
  induction rows generalizing mask i with
  | nil => simp at hi
  | cons r rs ih =>
    cases mask with
    | nil => simp at hm
    | cons b bs =>
      cases i with
      | zero =>
        simp only [List.getD_cons_zero] at hm ⊢
        rw [maskFilter, hm]
        exact List.mem_cons_self r (maskFilter rs bs)
      | succ i =>
        simp only [List.getD_cons_succ] at hm ⊢
        have hmem := ih bs i (by simpa using hi) hm
        rw [maskFilter]
        by_cases hb : b = true
        · rw [hb]; simpa using Or.inr hmem
        · simp only [Bool.not_eq_true] at hb
          rw [hb]; simpa using hmem

/-- Conversely, every member of a mask-filtered table sits at some position
whose mask bit is true. -/
theorem maskFilter_mem (rows : List Row) (mask : List Bool) (r : Row)
    (h : r ∈ maskFilter rows mask) :
    ∃ k, k < rows.length ∧ rows.getD k default = r ∧ mask.getD k false = true := by
  induction rows generalizing mask with
  | nil => rw [maskFilter] at h; simp at h
  | cons r0 rs ih =>
    cases mask with
    | nil => rw [maskFilter] at h; simp at h
    | cons b bs =>
      rw [maskFilter] at h
      by_cases hb : b = true
      · rw [hb] at h
        rw [if_pos rfl] at h
        rcases List.mem_cons.mp h with h | h
        · exact ⟨0, by simp, by simpa using h.symm, by simpa using hb⟩
        · obtain ⟨k, hk, hkr, hkm⟩ := ih bs h
          exact ⟨k + 1, by simpa using hk, by simpa using hkr, by simpa using hkm⟩
      · simp only [Bool.not_eq_true] at hb
        rw [hb] at h
        rw [if_neg (by simp)] at h
        obtain ⟨k, hk, hkr, hkm⟩ := ih bs h
        exact ⟨k + 1, by simpa using hk, by simpa using hkr, by simpa using hkm⟩

/-- Claim C2 (amended): a row of nonzero amount for which no row of the table
— including itself, but self-candidacy needs amount zero, hence the nonzero
hypothesis — passes the candidate filters is never marked as a transfer: it
is in the `invert=True` output and absent from the `invert=False` output.
(The original claim, stated for any row with no *distinct* partner, fails on
zero-amount rows, which match themselves: see the counterexample.) -/
theorem transfers_unmatched_amended (rows : List Row) (tw : Option Int) (ai : Bool) (i : Nat)
    (hi : i < rows.length) (hnz : (rows.getD i default).amount ≠ 0)
    (hno : ∀ j, j < rows.length → j ≠ i →
      ¬ candidate (rows.getD i default) (rows.getD j default) (resolveWindow tw) ai) :
    (transfersMask rows (resolveWindow tw) ai).getD i false = false
    ∧ rows.getD i default ∈ CashLedger.transfers rows true tw ai
    ∧ rows.getD i default ∉ CashLedger.transfers rows false tw ai := by
  have hall : ∀ j, j < rows.length →
      ¬ candidate (rows.getD i default) (rows.getD j default) (resolveWindow tw) ai := by
    intro j hj
    by_cases hji : j = i
    · subst hji
      intro hc
      exact hnz (by obtain ⟨h1, _, _⟩ := hc; omega)
    · exact hno j hj hji
  have hmaskF : (transfersMask rows (resolveWindow tw) ai).getD i false = false := by
    unfold transfersMask
    exact foldl_preserves_unmatched rows (resolveWindow tw) ai i hall
      (List.range rows.length) (List.replicate rows.length false)
      (fun x hx => List.mem_range.mp hx) (getD_replicate_false _ _)
  have hlen : (transfersMask rows (resolveWindow tw) ai).length = rows.length :=
    transfersMask_length rows (resolveWindow tw) ai
  refine ⟨hmaskF, ?_, ?_⟩
  · show rows.getD i default ∈
      maskFilter rows (if true then (transfersMask rows (resolveWindow tw) ai).map
        (fun b => !b) else transfersMask rows (resolveWindow tw) ai)
    rw [if_pos rfl]
    exact mem_maskFilter rows _ i hi
      (by rw [getD_map_not _ _ (by omega), hmaskF]; rfl)
  · intro hmem
    have hmem' : rows.getD i default ∈
        maskFilter rows (transfersMask rows (resolveWindow tw) ai) := by
      simpa [CashLedger.transfers] using hmem
    obtain ⟨k, hk, hkr, hkm⟩ := maskFilter_mem rows _ _ hmem'
    have hpart := foldl_preserves_partner rows (resolveWindow tw) ai
      (List.range rows.length) (List.replicate rows.length false)
      (fun x hx => List.mem_range.mp hx) (by simp)
      (fun k' hk' => absurd hk' (by rw [getD_replicate_false]; simp)) k
      (by rwa [transfersMask] at hkm)
    obtain ⟨m, hm, hcand⟩ := hpart
    rw [hkr] at hcand
    by_cases hmi : m = i
    · subst hmi
      exact hall m hm hcand
    · exact hno m hm hmi hcand

/-- Concrete instance exercising `transfers_unmatched_amended`: a lone row of
amount 5 is never marked. -/
theorem transfers_unmatched_amended_witness :
    (transfersMask [⟨0, 0, 5, "a", ""⟩] (resolveWindow none) true).getD 0 false = false
    ∧ (⟨0, 0, 5, "a", ""⟩ : Row) ∈ CashLedger.transfers [⟨0, 0, 5, "a", ""⟩] true none true
    ∧ (⟨0, 0, 5, "a", ""⟩ : Row) ∉ CashLedger.transfers [⟨0, 0, 5, "a", ""⟩] false none true := by
  have h := transfers_unmatched_amended [⟨0, 0, 5, "a", ""⟩] none true 0 (by decide)
    (by decide) (by intro j h1 h2; simp at h1; omega)
  simpa using h

/-- Filtering by a row-wise boolean mask built with `map` is list `filter`. -/
theorem maskFilter_map_eq_filter (rows : List Row) (f : Row → Bool) :
    maskFilter rows (rows.map f) = rows.filter f := by
  induction rows with
  | nil => rfl
  | cons r rs ih =>
    by_cases h : f r = true
    · simp [maskFilter, List.filter_cons, h, ih]
    · simp only [Bool.not_eq_true] at h
      simp [maskFilter, List.filter_cons, h, ih]

/-- A boolean predicate and its negation partition a list's length. -/
theorem length_filter_partition (rows : List Row) (p : Row → Bool) :
    (rows.filter p).length + (rows.filter (fun r => !(p r))).length = rows.length := by
  induction rows with
  | nil => rfl
  | cons r rs ih =>
    cases h : p r <;> simp [List.filter_cons, h] <;> omega

/-- Claim C5: `when(after=A, before=B)` keeps exactly the rows with
`A <= date < B` (an omitted bound is unconstrained), and together with the
`invert=True` complement it reconstructs the ledger: every row lands in
exactly one of the two results, and the lengths add up. -/
theorem when_interval_complement (rows : List Row) (a b : Option Int) :
    (∀ r, r ∈ CashLedger.when rows a b false ↔
        r ∈ rows ∧ (∀ x, a = some x → x ≤ r.date) ∧ (∀ y, b = some y → r.date < y))
    ∧ (∀ r, r ∈ rows ↔
        (r ∈ CashLedger.when rows a b false ∨ r ∈ CashLedger.when rows a b true))
    ∧ (∀ r, ¬(r ∈ CashLedger.when rows a b false ∧ r ∈ CashLedger.when rows a b true))
    ∧ (CashLedger.when rows a b false).length + (CashLedger.when rows a b true).length
        = rows.length := by
  have hF : CashLedger.when rows a b false
      = rows.filter (fun r =>
          (match a with | none => true | some x => decide (x ≤ r.date))
          && (match b with | none => true | some y => decide (r.date < y))) := by
    simp only [CashLedger.when, Bool.true_and, Bool.false_eq_true, if_false]
    exact maskFilter_map_eq_filter rows _
  have hT : CashLedger.when rows a b true
      = rows.filter (fun r =>
          !((match a with | none => true | some x => decide (x ≤ r.date))
            && (match b with | none => true | some y => decide (r.date < y)))) := by
    simp only [CashLedger.when, Bool.true_and, if_true, List.map_map]
    exact maskFilter_map_eq_filter rows _
  refine ⟨?_, ?_, ?_, ?_⟩
  · intro r
    rw [hF, List.mem_filter]
    cases a <;> cases b <;> simp
  · intro r
    rw [hF, hT, List.mem_filter, List.mem_filter]
    by_cases hr : r ∈ rows <;> cases a <;> cases b <;> simp [hr] <;> omega
  · intro r
    rw [hF, hT, List.mem_filter, List.mem_filter]
    rintro ⟨⟨_, h1⟩, ⟨_, h2⟩⟩
    rw [h1] at h2
    simp at h2
  · rw [hF, hT]
    exact length_filter_partition rows _

/-- `filter` only looks at the values, so pointwise-equal predicates agree. -/
theorem filter_congr_mem (l : List Row) (p q : Row → Bool) (h : ∀ x ∈ l, p x = q x) :
    l.filter p = l.filter q := by
  induction l with
  | nil => rfl
  | cons r rs ih =>
    have hr := h r (List.mem_cons_self r rs)
    have ht := ih (fun x hx => h x (List.mem_cons_of_mem r hx))
    simp [List.filter_cons, hr, ht]

/-- The income sub-ledger only holds positive amounts, so its total is
nonnegative. -/
theorem total_income_nonneg (rows : List Row) :
    0 ≤ CashLedger.total (CashLedger.income rows) := by
  induction rows with
  | nil => simp [CashLedger.income, CashLedger.total]
  | cons r rs ih =>
    by_cases h : 0 < r.amount
    · simp [CashLedger.income, CashLedger.total, List.filter_cons, h] at ih ⊢
      omega
    · simpa [CashLedger.income, CashLedger.total, List.filter_cons, h] using ih

/-- The expenses sub-ledger only holds nonpositive amounts, so its total is
nonpositive. -/
theorem total_expenses_nonpos (rows : List Row) :
    CashLedger.total (CashLedger.expenses rows) ≤ 0 := by
  induction rows with
  | nil => simp [CashLedger.expenses, CashLedger.total]
  | cons r rs ih =>
    by_cases h : r.amount ≤ 0
    · simp [CashLedger.expenses, CashLedger.total, List.filter_cons, h] at ih ⊢
      omega
    · simpa [CashLedger.expenses, CashLedger.total, List.filter_cons, h] using ih

/-- Claim C6: `income()` keeps exactly the rows with `amount > 0` and
`expenses()` exactly those with `amount <= 0` (zero-amount rows are
expenses); the income total is `>= 0`, the expenses total is `<= 0`, and the
two row counts sum to the ledger's row count. -/
theorem income_expenses_partition (rows : List Row) :
    (∀ r, r ∈ CashLedger.income rows ↔ r ∈ rows ∧ 0 < r.amount)
    ∧ (∀ r, r ∈ CashLedger.expenses rows ↔ r ∈ rows ∧ r.amount ≤ 0)
    ∧ 0 ≤ CashLedger.total (CashLedger.income rows)
    ∧ CashLedger.total (CashLedger.expenses rows) ≤ 0
    ∧ (CashLedger.income rows).length + (CashLedger.expenses rows).length = rows.length := by
  refine ⟨?_, ?_, total_income_nonneg rows, total_expenses_nonpos rows, ?_⟩
  · intro r; simp [CashLedger.income, List.mem_filter]
  · intro r; simp [CashLedger.expenses, List.mem_filter]
  · have hcongr : rows.filter (fun r => decide (r.amount ≤ 0))
        = rows.filter (fun r => !(decide (0 < r.amount))) := by
      refine filter_congr_mem rows _ _ (fun x _ => ?_)
      by_cases h : 0 < x.amount
      · have h2 : ¬(x.amount ≤ 0) := by omega
        simp [h, h2]
      · have h2 : x.amount ≤ 0 := by omega
        simp [h, h2]
    rw [CashLedger.income, CashLedger.expenses, hcongr]
    exact length_filter_partition rows _

/-- Filtering after a row transformation filters on the transformed value. -/
theorem filter_map_comm (l : List Row) (f : Row → Row) (p : Row → Bool) :
    (l.map f).filter p = (l.filter (fun r => p (f r))).map f := by
  induction l with
  | nil => rfl
  | cons r rs ih => cases h : p (f r) <;> simp [List.filter_cons, h, ih]

/-- `map` only looks at the values, so pointwise-equal functions agree. -/
theorem map_congr_mem (l : List Row) (f g : Row → Row) (h : ∀ x ∈ l, f x = g x) :
    l.map f = l.map g := by
  induction l with
  | nil => rfl
  | cons r rs ih =>
    rw [List.map_cons, List.map_cons, h r (List.mem_cons_self r rs),
      ih (fun x hx => h x (List.mem_cons_of_mem r hx))]

/-- Claim C7, counterexample: take L with one row already categorised `"X"`
and `other` the empty sub-ledger (trivially a subset of L).  The claim says
`recategorize(other, "X")` followed by `in_categories("X")` yields exactly
the rows of `other` — i.e. nothing — but the pre-existing `"X"` row comes
back. -/
theorem recategorize_preexisting_category_cex :
    CashLedger.in_categories
        ((CashLedger.recategorize [⟨0, 0, 5, "acct", "X"⟩]
            (([] : List Row).map Row.key) "X" false).1.getD [⟨0, 0, 5, "acct", "X"⟩])
        ["X"] false
      = [⟨0, 0, 5, "acct", "X"⟩] := by
  decide

/-- Claim C7 (amended): provided no row of L outside `other` already carries
category X, `recategorize(other, X, inplace=False)` followed by
`in_categories(X)` yields exactly the rows that were in `other`, matched by
key (their category column now reads X); the receiver's table is unchanged
and a new table is returned, while `inplace=True` edits the receiver's own
table and returns nothing.  (The claim as stated fails when some row outside
`other` already has category X: see the counterexample.) -/
theorem recategorize_in_categories_amended (rows other : List Row) (X : String)
    (hsub : ∀ o ∈ other, ∃ r ∈ rows, r.key = o.key)
    (hfresh : ∀ r ∈ rows, r.key ∉ other.map Row.key → r.category ≠ X) :
    CashLedger.in_categories
        ((CashLedger.recategorize rows (other.map Row.key) X false).1.getD rows) [X] false
      = (rows.filter (fun r => decide (r.key ∈ other.map Row.key))).map
          (fun r => { r with category := X })
    ∧ (∀ k, (k ∈ (CashLedger.in_categories
          ((CashLedger.recategorize rows (other.map Row.key) X false).1.getD rows) [X]
          false).map Row.key) ↔ k ∈ other.map Row.key)
    ∧ (CashLedger.recategorize rows (other.map Row.key) X false).2 = rows
    ∧ (CashLedger.recategorize rows (other.map Row.key) X true).1 = none
    ∧ (CashLedger.recategorize rows (other.map Row.key) X true).2
        = CashLedger.recategorizeTable rows (other.map Row.key) X := by
  have h1 : (CashLedger.recategorize rows (other.map Row.key) X false).1.getD rows
      = CashLedger.recategorizeTable rows (other.map Row.key) X := rfl
  have hmain : CashLedger.in_categories
        (CashLedger.recategorizeTable rows (other.map Row.key) X) [X] false
      = (rows.filter (fun r => decide (r.key ∈ other.map Row.key))).map
          (fun r => { r with category := X }) := by
    have h2 : CashLedger.in_categories
          (CashLedger.recategorizeTable rows (other.map Row.key) X) [X] false
        = (CashLedger.recategorizeTable rows (other.map Row.key) X).filter
            (fun r => [X].contains r.category) := by
      simp only [CashLedger.in_categories, Bool.false_eq_true, if_false]
      exact maskFilter_map_eq_filter _ _
    rw [h2, CashLedger.recategorizeTable, filter_map_comm]
    rw [filter_congr_mem rows _ (fun r => decide (r.key ∈ other.map Row.key)) ?hpred]
    · refine map_congr_mem _ _ _ (fun x hx => ?_)
      rcases List.mem_filter.mp hx with ⟨hxr, hxd⟩
      rw [if_pos (of_decide_eq_true hxd)]
    case hpred =>
      intro r hr
      by_cases hk : r.key ∈ other.map Row.key
      · simp [hk, List.contains]
      · have hne : r.category ≠ X := hfresh r hr hk
        simp [hk, List.contains, hne]
  refine ⟨by rw [h1, hmain], ?_, rfl, rfl, rfl⟩
  intro k
  rw [h1, hmain]
  constructor
  · intro hk
    rcases List.mem_map.mp hk with ⟨r, hrf, hrk⟩
    rcases List.mem_map.mp hrf with ⟨r0, hr0f, hr0e⟩
    rcases List.mem_filter.mp hr0f with ⟨hr0, hr0d⟩
    have : r0.key ∈ other.map Row.key := of_decide_eq_true hr0d
    rw [← hrk, ← hr0e]
    exact this
  · intro hk
    rcases List.mem_map.mp hk with ⟨o, ho, hoe⟩
    rcases hsub o ho with ⟨r, hr, hre⟩
    refine List.mem_map.mpr ⟨{ r with category := X }, ?_, by simpa using hre.trans hoe⟩
    refine List.mem_map.mpr ⟨r, ?_, rfl⟩
    refine List.mem_filter.mpr ⟨hr, decide_eq_true ?_⟩
    rw [hre, hoe]
    exact hk

/-- Concrete instance exercising `recategorize_in_categories_amended`: a
two-row ledger, `other` its first row, fresh category `"Z"`. -/
theorem recategorize_in_categories_amended_witness :
    CashLedger.in_categories
        ((CashLedger.recategorize [⟨0, 0, 1, "a", "c1"⟩, ⟨1, 0, 2, "a", "c2"⟩]
            (([⟨0, 0, 1, "a", "c1"⟩] : List Row).map Row.key) "Z" false).1.getD
          [⟨0, 0, 1, "a", "c1"⟩, ⟨1, 0, 2, "a", "c2"⟩]) ["Z"] false
      = [⟨0, 0, 1, "a", "Z"⟩]
    ∧ (CashLedger.recategorize [⟨0, 0, 1, "a", "c1"⟩, ⟨1, 0, 2, "a", "c2"⟩]
        (([⟨0, 0, 1, "a", "c1"⟩] : List Row).map Row.key) "Z" false).2
      = [⟨0, 0, 1, "a", "c1"⟩, ⟨1, 0, 2, "a", "c2"⟩] := by
  have h := recategorize_in_categories_amended
    [⟨0, 0, 1, "a", "c1"⟩, ⟨1, 0, 2, "a", "c2"⟩] [⟨0, 0, 1, "a", "c1"⟩] "Z"
    (by decide) (by decide)
  exact ⟨by rw [h.1]; decide, h.2.2.1⟩

/-- `pandas.Series.str.strip()`: drop leading and trailing whitespace. -/
def strip (s : String) : String :=
  ((s.toList.dropWhile (fun c => c.isWhitespace)).reverse.dropWhile
    (fun c => c.isWhitespace)).reverse.asString

/-- A raw T. Rowe Price activity row as read by `StockLedger.from_trp`
(stock_ledger.py lines 45-58), after the numeric columns are parsed. -/
structure TrpRow where
  activityType : String
  amount : Int
  shares : Int
  sharePrice : Int
  date : Int
  fund : String
  source : String
deriving DecidableEq, Repr

/-- One canonical brokerage-ledger row (stock_ledger.py schema). -/
structure StockRow where
  type : String
  amount : Int
  shares : Int
  sharePrice : Int
  date : Int
  fund : String
  source : String
deriving DecidableEq, Repr

/-- The stripped activity type after the "Redemption Fee" → "Fee" recode
(line 61) but before the Exchange In/Out collapse (lines 77-78). -/
def preCollapseType (r : TrpRow) : String :=
  strip (if strip r.activityType = "Redemption Fee" then "Fee" else r.activityType)

/-- The per-row normalization of `StockLedger.from_trp` (stock_ledger.py
lines 60-78): recode "Redemption Fee" to "Fee"; negate amount and shares for
stripped types "Exchange Out" and "Fee"; strip the categorical columns;
collapse "Exchange In"/"Exchange Out" into "Exchange". -/
def normTrpRow (r : TrpRow) : StockRow :=
  let t1 := if strip r.activityType = "Redemption Fee" then "Fee" else r.activityType
  let neg := strip t1 = "Exchange Out" ∨ strip t1 = "Fee"
  let a := if neg then -r.amount else r.amount
  let s := if neg then -r.shares else r.shares
  let t2 := strip t1
  let t3 := if t2 = "Exchange In" then "Exchange"
            else if t2 = "Exchange Out" then "Exchange" else t2
  ⟨t3, a, s, r.sharePrice, r.date, strip r.fund, strip r.source⟩

/-- Claim C8: rows whose stripped activity type is "Redemption Fee" end with
type "Fee"; stripped "Exchange In"/"Exchange Out" rows end with type
"Exchange"; and amount and shares are negated exactly when the pre-collapse
type (after the "Redemption Fee" recode) is "Exchange Out" or "Fee",
otherwise they are unchanged. -/
theorem from_trp_recode_negate (r : TrpRow) :
    (strip r.activityType = "Redemption Fee" → (normTrpRow r).type = "Fee")
    ∧ ((strip r.activityType = "Exchange In" ∨ strip r.activityType = "Exchange Out") →
        (normTrpRow r).type = "Exchange")
    ∧ (normTrpRow r).amount
        = (if preCollapseType r = "Exchange Out" ∨ preCollapseType r = "Fee"
           then -r.amount else r.amount)
    ∧ (normTrpRow r).shares
        = (if preCollapseType r = "Exchange Out" ∨ preCollapseType r = "Fee"
           then -r.shares else r.shares) := by
  refine ⟨?_, ?_, ?_, ?_⟩
  · intro h
    simp [normTrpRow, h]
    decide
  · rintro (h | h) <;> simp [normTrpRow, h]
  · simp only [normTrpRow, preCollapseType]
  · simp only [normTrpRow, preCollapseType]

/-- Concrete instances exercising `from_trp_recode_negate`: a
`" Redemption Fee "` row is recoded to "Fee" with amount/shares negated, and
an `"Exchange In"` row collapses to "Exchange". -/
theorem from_trp_recode_negate_witness :
    (normTrpRow ⟨" Redemption Fee ", 5, 2, 1, 0, "f", "s"⟩).type = "Fee"
    ∧ (normTrpRow ⟨" Redemption Fee ", 5, 2, 1, 0, "f", "s"⟩).amount = -5
    ∧ (normTrpRow ⟨" Redemption Fee ", 5, 2, 1, 0, "f", "s"⟩).shares = -2
    ∧ (normTrpRow ⟨"Exchange In", 3, 1, 1, 0, "f", "s"⟩).type = "Exchange" := by
  refine ⟨(from_trp_recode_negate _).1 (by decide), ?_, ?_,
    (from_trp_recode_negate _).2.1 (Or.inl (by decide))⟩
  · have h := (from_trp_recode_negate ⟨" Redemption Fee ", 5, 2, 1, 0, "f", "s"⟩).2.2.1
    rwa [if_pos (Or.inr (by decide))] at h
  · have h := (from_trp_recode_negate ⟨" Redemption Fee ", 5, 2, 1, 0, "f", "s"⟩).2.2.2
    rwa [if_pos (Or.inr (by decide))] at h

/-- A raw CSV table as loaded by `pd.read_csv`: named columns of cell
strings. -/
abbrev RawTable := List (String × List String)

/-- Column lookup (`df["Name"]`): the first column with the given header. -/
def col? (t : RawTable) (name : String) : Option (List String) :=
  (t.find? (fun p => p.1 == name)).map Prod.snd

/-- Modelled from the spec: `SchemaError`, raised when expected columns are
missing or a field fails to parse into its expected type.  The repository
itself defines no such class — the underlying pandas calls raise their own
exceptions, which the normalizers do not catch; the spec names that failure
`SchemaError`. -/
structure SchemaError where
  msg : String
deriving DecidableEq, Repr

/-- Accessing a column that must exist: a missing header is a
`SchemaError`. -/
def requireCol (t : RawTable) (name : String) : Except SchemaError (List String) :=
  match col? t name with
  | none => Except.error ⟨"missing column: " ++ name⟩
  | some c => Except.ok c

def charDigit? (c : Char) : Option Nat :=
  if c = '0' then some 0
  else if c = '1' then some 1
  else if c = '2' then some 2
  else if c = '3' then some 3
  else if c = '4' then some 4
  else if c = '5' then some 5
  else if c = '6' then some 6
  else if c = '7' then some 7
  else if c = '8' then some 8
  else if c = '9' then some 9
  else none

def parseNatAux : List Char → Nat → Option Nat
  | [], acc => some acc
  | c :: cs, acc =>
    match charDigit? c with
    | none => none
    | some d => parseNatAux cs (acc * 10 + d)

/-- Modelled from the spec: numeric parsing of a cell.  A cell parses iff it
is an optionally negated decimal numeral; anything else (e.g. a non-numeric
amount) is a parse failure. -/
def parseInt? (s : String) : Option Int :=
  match s.toList with
  | [] => none
  | c :: cs =>
    if c = '-' then
      if cs.isEmpty then none else (parseNatAux cs 0).map (fun n => -(n : Int))
    else (parseNatAux (c :: cs) 0).map (fun n => (n : Int))

/-- `.replace("[\$,]", "", regex=True).astype(float)`: strip currency symbols
and thousands separators, then the remainder must be numeric. -/
def parseMoney (s : String) : Option Int :=
  parseInt? ((s.toList.filter (fun c => !(c == '$' || c == ','))).asString)

/-- Modelled from the spec: `pd.to_datetime` — an unparseable date cell is a
`SchemaError`; in this model a date cell parses iff it is a numeral. -/
def parseDate (s : String) : Option Int := parseInt? s

/-- Parse every cell of a column, failing on the first unparseable cell. -/
def parseAll (f : String → Option Int) (what : String) : List String →
    Except SchemaError (List Int)
  | [] => Except.ok []
  | c :: cs =>
    match f c with
    | none => Except.error ⟨what ++ ": " ++ c⟩
    | some v =>
      match parseAll f what cs with
      | Except.error e => Except.error e
      | Except.ok vs => Except.ok (v :: vs)

/-- `CashLedger.from_mint` (cash_ledger.py lines 15-51): needs the
"Transaction Type", "Amount" and "Date" columns, parses amounts and dates,
negates debit rows, and renames the rest (a missing renamable column is
tolerated and left empty). -/
def CashLedger.from_mint (t : RawTable) : Except SchemaError (List Row) :=
  match requireCol t "Transaction Type" with
  | Except.error e => Except.error e
  | Except.ok tt =>
    match requireCol t "Amount" with
    | Except.error e => Except.error e
    | Except.ok amtC =>
      match parseAll parseInt? "non-numeric amount" amtC with
      | Except.error e => Except.error e
      | Except.ok amts =>
        match requireCol t "Date" with
        | Except.error e => Except.error e
        | Except.ok dateC =>
          match parseAll parseDate "unparseable date" dateC with
          | Except.error e => Except.error e
          | Except.ok dates =>
            let accts := (col? t "Account Name").getD (List.replicate dates.length "")
            let cats := (col? t "Category").getD (List.replicate dates.length "")
            let signed := (tt.zip amts).map
              (fun p => if p.1 = "debit" then -p.2 else p.2)
            Except.ok (((signed.zip dates).zip (accts.zip cats)).enum.map
              (fun p => ⟨p.1, p.2.1.2, p.2.1.1, p.2.2.1, p.2.2.2⟩))

/-- A successful parse of a whole column means every cell parsed. -/
theorem parseAll_ok {f : String → Option Int} {what : String} :
    ∀ {cells : List String} {vs : List Int},
      parseAll f what cells = Except.ok vs → ∀ s ∈ cells, f s ≠ none := by
  intro cells
  induction cells with
  | nil => intro vs _ s hs; simp at hs
  | cons c cs ih =>
    intro vs h s hs
    rw [parseAll] at h
    cases hc : f c with
    | none => rw [hc] at h; simp at h
    | some v =>
      rw [hc] at h
      cases hr : parseAll f what cs with
      | error e => rw [hr] at h; simp at h
      | ok vs' =>
        rcases List.mem_cons.mp hs with rfl | hs'
        · rw [hc]; simp
        · exact ih hr s hs'

/-- If `from_mint` succeeds, all required columns were present and every
amount and date cell parsed. -/
theorem from_mint_ok {t : RawTable} {res : List Row}
    (h : CashLedger.from_mint t = Except.ok res) :
    (col? t "Transaction Type").isSome = true
    ∧ (col? t "Amount").isSome = true
    ∧ (col? t "Date").isSome = true
    ∧ (∀ cells, col? t "Amount" = some cells → ∀ s ∈ cells, parseInt? s ≠ none)
    ∧ (∀ cells, col? t "Date" = some cells → ∀ s ∈ cells, parseDate s ≠ none) := by
  rw [CashLedger.from_mint] at h
  cases h1 : col? t "Transaction Type" with
  | none => simp only [requireCol, h1] at h; exact absurd h (by simp)
  | some tt =>
    simp only [requireCol, h1] at h
    cases h2 : col? t "Amount" with
    | none => simp only [requireCol, h2] at h; exact absurd h (by simp)
    | some amtC =>
      simp only [requireCol, h2] at h
      cases h3 : parseAll parseInt? "non-numeric amount" amtC with
      | error e => simp only [h3] at h; exact absurd h (by simp)
      | ok amts =>
        simp only [h3] at h
        cases h4 : col? t "Date" with
        | none => simp only [requireCol, h4] at h; exact absurd h (by simp)
        | some dateC =>
          simp only [requireCol, h4] at h
          cases h5 : parseAll parseDate "unparseable date" dateC with
          | error e => simp only [h5] at h; exact absurd h (by simp)
          | ok dates =>
            refine ⟨by simp, by simp, by simp, ?_, ?_⟩
            · intro cells hc
              obtain rfl : amtC = cells := Option.some.inj hc
              exact parseAll_ok h3
            · intro cells hc
              obtain rfl : dateC = cells := Option.some.inj hc
              exact parseAll_ok h5

/-- `CashLedger.from_tiller` (cash_ledger.py lines 53-92): needs "Date" and
"Amount" (currency-stripped), and also drops "Month", "Week" and
"Transaction ID", which must therefore exist as well. -/
def CashLedger.from_tiller (t : RawTable) : Except SchemaError (List Row) :=
  match requireCol t "Date" with
  | Except.error e => Except.error e
  | Except.ok dateC =>
    match parseAll parseDate "unparseable date" dateC with
    | Except.error e => Except.error e
    | Except.ok dates =>
      match requireCol t "Amount" with
      | Except.error e => Except.error e
      | Except.ok amtC =>
        match parseAll parseMoney "non-numeric amount" amtC with
        | Except.error e => Except.error e
        | Except.ok amts =>
          match requireCol t "Month" with
          | Except.error e => Except.error e
          | Except.ok _ =>
            match requireCol t "Week" with
            | Except.error e => Except.error e
            | Except.ok _ =>
              match requireCol t "Transaction ID" with
              | Except.error e => Except.error e
              | Except.ok _ =>
                let accts := (col? t "Account").getD (List.replicate dates.length "")
                let cats := (col? t "Category").getD (List.replicate dates.length "")
                Except.ok (((dates.zip amts).zip (accts.zip cats)).enum.map
                  (fun p => ⟨p.1, p.2.1.1, p.2.1.2, p.2.2.1, p.2.2.2⟩))

/-- If `from_tiller` succeeds, all required columns were present and every
amount and date cell parsed. -/
theorem from_tiller_ok {t : RawTable} {res : List Row}
    (h : CashLedger.from_tiller t = Except.ok res) :
    (col? t "Date").isSome = true
    ∧ (col? t "Amount").isSome = true
    ∧ (col? t "Month").isSome = true
    ∧ (col? t "Week").isSome = true
    ∧ (col? t "Transaction ID").isSome = true
    ∧ (∀ cells, col? t "Amount" = some cells → ∀ s ∈ cells, parseMoney s ≠ none)
    ∧ (∀ cells, col? t "Date" = some cells → ∀ s ∈ cells, parseDate s ≠ none) := by
  rw [CashLedger.from_tiller] at h
  cases h1 : col? t "Date" with
  | none => simp only [requireCol, h1] at h; exact absurd h (by simp)
  | some dateC =>
    simp only [requireCol, h1] at h
    cases h2 : parseAll parseDate "unparseable date" dateC with
    | error e => simp only [h2] at h; exact absurd h (by simp)
    | ok dates =>
      simp only [h2] at h
      cases h3 : col? t "Amount" with
      | none => simp only [requireCol, h3] at h; exact absurd h (by simp)
      | some amtC =>
        simp only [requireCol, h3] at h
        cases h4 : parseAll parseMoney "non-numeric amount" amtC with
        | error e => simp only [h4] at h; exact absurd h (by simp)
        | ok amts =>
          simp only [h4] at h
          cases h5 : col? t "Month" with
          | none => simp only [requireCol, h5] at h; exact absurd h (by simp)
          | some mC =>
            simp only [requireCol, h5] at h
            cases h6 : col? t "Week" with
            | none => simp only [requireCol, h6] at h; exact absurd h (by simp)
            | some wC =>
              simp only [requireCol, h6] at h
              cases h7 : col? t "Transaction ID" with
              | none => simp only [requireCol, h7] at h; exact absurd h (by simp)
              | some iC =>
                refine ⟨by simp, by simp, by simp, by simp, by simp, ?_, ?_⟩
                · intro cells hc
                  obtain rfl : amtC = cells := Option.some.inj hc
                  exact parseAll_ok h4
                · intro cells hc
                  obtain rfl : dateC = cells := Option.some.inj hc
                  exact parseAll_ok h2

/-- `StockLedger.from_trp` on a single CSV (stock_ledger.py lines 42-84):
`read_csv(usecols=[...])` requires all seven listed columns, then dates,
amounts, prices and shares are parsed and each row is normalized by
`normTrpRow`. -/
def StockLedger.from_trp (t : RawTable) : Except SchemaError (List StockRow) :=
  match requireCol t "Date" with
  | Except.error e => Except.error e
  | Except.ok dateC =>
    match requireCol t "Amount" with
    | Except.error e => Except.error e
    | Except.ok amtC =>
      match requireCol t "Shares" with
      | Except.error e => Except.error e
      | Except.ok sharesC =>
        match requireCol t "Price" with
        | Except.error e => Except.error e
        | Except.ok priceC =>
          match requireCol t "Source" with
          | Except.error e => Except.error e
          | Except.ok srcC =>
            match requireCol t "Activity Type" with
            | Except.error e => Except.error e
            | Except.ok typeC =>
              match requireCol t "Investment" with
              | Except.error e => Except.error e
              | Except.ok fundC =>
                match parseAll parseDate "unparseable date" dateC with
                | Except.error e => Except.error e
                | Except.ok dates =>
                  match parseAll parseMoney "non-numeric amount" amtC with
                  | Except.error e => Except.error e
                  | Except.ok amts =>
                    match parseAll parseMoney "non-numeric price" priceC with
                    | Except.error e => Except.error e
                    | Except.ok prices =>
                      match parseAll parseInt? "non-numeric shares" sharesC with
                      | Except.error e => Except.error e
                      | Except.ok shares =>
                        Except.ok ((((typeC.zip amts).zip (shares.zip prices)).zip
                            (dates.zip (fundC.zip srcC))).map
                          (fun p => normTrpRow
                            ⟨p.1.1.1, p.1.1.2, p.1.2.1, p.1.2.2, p.2.1, p.2.2.1, p.2.2.2⟩))

/-- If `from_trp` succeeds, all seven `usecols` columns were present and
every amount and date cell parsed. -/
theorem from_trp_ok {t : RawTable} {res : List StockRow}
    (h : StockLedger.from_trp t = Except.ok res) :
    (col? t "Date").isSome = true
    ∧ (col? t "Amount").isSome = true
    ∧ (col? t "Shares").isSome = true
    ∧ (col? t "Price").isSome = true
    ∧ (col? t "Source").isSome = true
    ∧ (col? t "Activity Type").isSome = true
    ∧ (col? t "Investment").isSome = true
    ∧ (∀ cells, col? t "Amount" = some cells → ∀ s ∈ cells, parseMoney s ≠ none)
    ∧ (∀ cells, col? t "Date" = some cells → ∀ s ∈ cells, parseDate s ≠ none) := by
  rw [StockLedger.from_trp] at h
  cases h1 : col? t "Date" with
  | none => simp only [requireCol, h1] at h; exact absurd h (by simp)
  | some dateC =>
    simp only [requireCol, h1] at h
    cases h2 : col? t "Amount" with
    | none => simp only [requireCol, h2] at h; exact absurd h (by simp)
    | some amtC =>
      simp only [requireCol, h2] at h
      cases h3 : col? t "Shares" with
      | none => simp only [requireCol, h3] at h; exact absurd h (by simp)
      | some sharesC =>
        simp only [requireCol, h3] at h
        cases h4 : col? t "Price" with
        | none => simp only [requireCol, h4] at h; exact absurd h (by simp)
        | some priceC =>
          simp only [requireCol, h4] at h
          cases h5 : col? t "Source" with
          | none => simp only [requireCol, h5] at h; exact absurd h (by simp)
          | some srcC =>
            simp only [requireCol, h5] at h
            cases h6 : col? t "Activity Type" with
            | none => simp only [requireCol, h6] at h; exact absurd h (by simp)
            | some typeC =>
              simp only [requireCol, h6] at h
              cases h7 : col? t "Investment" with
              | none => simp only [requireCol, h7] at h; exact absurd h (by simp)
              | some fundC =>
                simp only [requireCol, h7] at h
                cases h8 : parseAll parseDate "unparseable date" dateC with
                | error e => simp only [h8] at h; exact absurd h (by simp)
                | ok dates =>
                  simp only [h8] at h
                  cases h9 : parseAll parseMoney "non-numeric amount" amtC with
                  | error e => simp only [h9] at h; exact absurd h (by simp)
                  | ok amts =>
                    simp only [h9] at h
                    refine ⟨by simp, by simp, by simp, by simp, by simp, by simp, by simp,
                      ?_, ?_⟩
                    · intro cells hc
                      obtain rfl : amtC = cells := Option.some.inj hc
                      exact parseAll_ok h9
                    · intro cells hc
                      obtain rfl : dateC = cells := Option.some.inj hc
                      exact parseAll_ok h8

/-- The columns `from_mint` cannot do without. -/
def mintRequired : List String := ["Transaction Type", "Amount", "Date"]

/-- The columns `from_tiller` cannot do without (the last three because they
are explicitly dropped, which raises on a missing label). -/
def tillerRequired : List String := ["Date", "Amount", "Month", "Week", "Transaction ID"]

/-- The `usecols` list of `from_trp`. -/
def trpRequired : List String :=
  ["Date", "Amount", "Shares", "Price", "Source", "Activity Type", "Investment"]

/-- Claim C9: every normalizer (Mint, Tiller, brokerage) fails with a
`SchemaError` when a required source column is absent or when an amount or
date cell fails to parse, and the error is returned directly to the caller
(there is no recovery path: the result is the error itself). -/
theorem normalizers_schema_error (t : RawTable) :
    (∀ c ∈ mintRequired, col? t c = none → ∃ e, CashLedger.from_mint t = Except.error e)
    ∧ ((∃ cells s, col? t "Amount" = some cells ∧ s ∈ cells ∧ parseInt? s = none) →
        ∃ e, CashLedger.from_mint t = Except.error e)
    ∧ ((∃ cells s, col? t "Date" = some cells ∧ s ∈ cells ∧ parseDate s = none) →
        ∃ e, CashLedger.from_mint t = Except.error e)
    ∧ (∀ c ∈ tillerRequired, col? t c = none → ∃ e, CashLedger.from_tiller t = Except.error e)
    ∧ ((∃ cells s, col? t "Amount" = some cells ∧ s ∈ cells ∧ parseMoney s = none) →
        ∃ e, CashLedger.from_tiller t = Except.error e)
    ∧ ((∃ cells s, col? t "Date" = some cells ∧ s ∈ cells ∧ parseDate s = none) →
        ∃ e, CashLedger.from_tiller t = Except.error e)
    ∧ (∀ c ∈ trpRequired, col? t c = none → ∃ e, StockLedger.from_trp t = Except.error e)
    ∧ ((∃ cells s, col? t "Amount" = some cells ∧ s ∈ cells ∧ parseMoney s = none) →
        ∃ e, StockLedger.from_trp t = Except.error e)
    ∧ ((∃ cells s, col? t "Date" = some cells ∧ s ∈ cells ∧ parseDate s = none) →
        ∃ e, StockLedger.from_trp t = Except.error e) := by
  refine ⟨?_, ?_, ?_, ?_, ?_, ?_, ?_, ?_, ?_⟩
  · intro c hc hnone
    cases hres : CashLedger.from_mint t with
    | error e => exact ⟨e, rfl⟩
    | ok res =>
      exfalso
      have hok := from_mint_ok hres
      simp only [mintRequired, List.mem_cons, List.not_mem_nil, or_false] at hc
      rcases hc with rfl | rfl | rfl
      · rw [hnone] at hok; simpa using hok.1
      · rw [hnone] at hok; simpa using hok.2.1
      · rw [hnone] at hok; simpa using hok.2.2.1
  · rintro ⟨cells, s, hcol, hs, hp⟩
    cases hres : CashLedger.from_mint t with
    | error e => exact ⟨e, rfl⟩
    | ok res => exact absurd hp ((from_mint_ok hres).2.2.2.1 cells hcol s hs)
  · rintro ⟨cells, s, hcol, hs, hp⟩
    cases hres : CashLedger.from_mint t with
    | error e => exact ⟨e, rfl⟩
    | ok res => exact absurd hp ((from_mint_ok hres).2.2.2.2 cells hcol s hs)
  · intro c hc hnone
    cases hres : CashLedger.from_tiller t with
    | error e => exact ⟨e, rfl⟩
    | ok res =>
      exfalso
      have hok := from_tiller_ok hres
      simp only [tillerRequired, List.mem_cons, List.not_mem_nil, or_false] at hc
      rcases hc with rfl | rfl | rfl | rfl | rfl
      · rw [hnone] at hok; simpa using hok.1
      · rw [hnone] at hok; simpa using hok.2.1
      · rw [hnone] at hok; simpa using hok.2.2.1
      · rw [hnone] at hok; simpa using hok.2.2.2.1
      · rw [hnone] at hok; simpa using hok.2.2.2.2.1
  · rintro ⟨cells, s, hcol, hs, hp⟩
    cases hres : CashLedger.from_tiller t with
    | error e => exact ⟨e, rfl⟩
    | ok res => exact absurd hp ((from_tiller_ok hres).2.2.2.2.2.1 cells hcol s hs)
  · rintro ⟨cells, s, hcol, hs, hp⟩
    cases hres : CashLedger.from_tiller t with
    | error e => exact ⟨e, rfl⟩
    | ok res => exact absurd hp ((from_tiller_ok hres).2.2.2.2.2.2 cells hcol s hs)
  · intro c hc hnone
    cases hres : StockLedger.from_trp t with
    | error e => exact ⟨e, rfl⟩
    | ok res =>
      exfalso
      have hok := from_trp_ok hres
      simp only [trpRequired, List.mem_cons, List.not_mem_nil, or_false] at hc
      rcases hc with rfl | rfl | rfl | rfl | rfl | rfl | rfl
      · rw [hnone] at hok; simpa using hok.1
      · rw [hnone] at hok; simpa using hok.2.1
      · rw [hnone] at hok; simpa using hok.2.2.1
      · rw [hnone] at hok; simpa using hok.2.2.2.1
      · rw [hnone] at hok; simpa using hok.2.2.2.2.1
      · rw [hnone] at hok; simpa using hok.2.2.2.2.2.1
      · rw [hnone] at hok; simpa using hok.2.2.2.2.2.2.1
  · rintro ⟨cells, s, hcol, hs, hp⟩
    cases hres : StockLedger.from_trp t with
    | error e => exact ⟨e, rfl⟩
    | ok res => exact absurd hp ((from_trp_ok hres).2.2.2.2.2.2.2.1 cells hcol s hs)
  · rintro ⟨cells, s, hcol, hs, hp⟩
    cases hres : StockLedger.from_trp t with
    | error e => exact ⟨e, rfl⟩
    | ok res => exact absurd hp ((from_trp_ok hres).2.2.2.2.2.2.2.2 cells hcol s hs)

/-- Concrete instances exercising `normalizers_schema_error`: an empty table
(all columns missing) makes every normalizer fail, and a Mint table with a
non-numeric amount cell fails too. -/
theorem normalizers_schema_error_witness :
    (∃ e, CashLedger.from_mint [] = Except.error e)
    ∧ (∃ e, CashLedger.from_tiller [] = Except.error e)
    ∧ (∃ e, StockLedger.from_trp [] = Except.error e)
    ∧ (∃ e, CashLedger.from_mint
        [("Transaction Type", ["debit"]), ("Amount", ["abc"]), ("Date", ["1"])]
        = Except.error e) :=
  ⟨(normalizers_schema_error []).1 "Transaction Type" (by decide) rfl,
   (normalizers_schema_error []).2.2.2.1 "Date" (by decide) rfl,
   (normalizers_schema_error []).2.2.2.2.2.2.1 "Date" (by decide) rfl,
   (normalizers_schema_error
      [("Transaction Type", ["debit"]), ("Amount", ["abc"]), ("Date", ["1"])]).2.1
     ⟨["abc"], "abc", by decide, by decide, by decide⟩⟩
